import Mathlib

/-!
Verification of the lsp-recorder stream-interception and protocol-framing
subsystem (Go sources `recorder.go`, `main.go`) against its specification.

The Go code is shallowly embedded:
* bytes are `Nat` (values 0..255), a `bytes.Buffer` is a `List Nat` consumed
  from the front (`ReadByte` takes the head; on an empty buffer Go's
  `ReadByte` returns the zero byte together with `io.EOF`);
* `ContentHeaderParser` is a structure holding the Go struct's three fields;
  `Parse` is translated loop-by-loop (the `goto START` chain
  `IN_HEADER -> IN_LENGTH -> IN_NEWLINES -> Atoi` becomes a chain of
  recursive functions, each consuming the buffer from the front);
* errors: the `(int, error)` result of `Parse` becomes `ParseResult`
  (`ok` for a returned length, `suspend` for the `io.EOF` "need more input"
  signal, `err` for a hard parse error carrying the Go error message);
* the `intercept` pump loop body becomes a step function from the pump's
  private state (parser, pending buffer, `requiredPayloadLen`) and one
  read/write event to the next state plus the emitted actions (the
  passthrough write and the log records sent to the channel);
* the orchestrator `Run` and the `main`/`CLIRecord.Run` exit path are
  modelled as functions of the outcomes of the fallible calls
  (pipe creation, `Start`, `Wait`), which is all the claims depend on.
-/

/-- StreamType from recorder.go: tag of the child-process channel. -/
inductive StreamType
  | STDIN
  | STDOUT
  | STDERR
deriving DecidableEq

/-- PayloadType from recorder.go: classification of a log record. -/
inductive PayloadType
  | INVALID
  | JSON
  | RAW
  | RAW_START
  | RAW_END
deriving DecidableEq

/-- LogData as far as the claims observe it: stream tag, payload tag and
payload bytes (the Go struct also carries a timestamp, which no claim is
about). -/
structure LogRecord where
  streamType : StreamType
  payloadType : PayloadType
  payload : List Nat
deriving DecidableEq

/-- States of the ContentHeaderParser state machine (recorder.go). -/
inductive ContentHeaderParserState
  | INITIAL
  | IN_HEADER
  | IN_LENGTH
  | IN_NEWLINES
deriving DecidableEq

/-- ContentHeaderParser struct: state, pos, and the strings.Builder `sb`
(modelled as the list of bytes written to it). -/
structure ContentHeaderParser where
  state : ContentHeaderParserState
  pos : Nat
  sb : List Nat
deriving DecidableEq

/-- NewContentHeaderParser / reset: state INITIAL, pos 0, empty builder. -/
def initParser : ContentHeaderParser := ⟨.INITIAL, 0, []⟩

/-- Result of one Parse call: a returned length (Go `(n, nil)`), the
suspend signal (Go `(-1, io.EOF)`), or a hard parse error (Go `(-1, err)`). -/
inductive ParseResult
  | ok (n : Int)
  | suspend
  | err (msg : String)
deriving DecidableEq

/-- Outcome of one Parse call: result, the parser struct after the call, and
the unread remainder of the `bytes.Buffer`. -/
structure ParseStep where
  result : ParseResult
  parser : ContentHeaderParser
  buffer : List Nat
deriving DecidableEq

/-- Byte list of the literal "Content-Length: " matched in state IN_HEADER. -/
def headerLit : List Nat :=
  [67, 111, 110, 116, 101, 110, 116, 45, 76, 101, 110, 103, 116, 104, 58, 32]

/-- Byte list of the literal "\n\r\n" matched in state IN_NEWLINES. -/
def newlinesLit : List Nat := [10, 13, 10]

/-- Go's conversion of raw bytes to a string, restricted to the byte range
(each byte becomes the character of its code point, faithful for ASCII). -/
def natsToString (l : List Nat) : String := String.mk (l.map Char.ofNat)

/-- Byte list of a string (code points; inverse of natsToString on ASCII). -/
def strBytes (s : String) : List Nat := s.toList.map Char.toNat

/-- Single-quote character as a one-character string (byte 39). -/
def sglQuote : String := String.mk [Char.ofNat 39]

/-- Error message of the IN_HEADER mismatch branch:
`fmt.Errorf("invalid message header: '%s'", buffer.String())`, where
`buffer.String()` is the unread remainder of the buffer. -/
def headerErrMsg (remaining : List Nat) : String :=
  "invalid message header: " ++ sglQuote ++ natsToString remaining ++ sglQuote

/-- Error message of the terminator branches. The Go literal
`"content length must be end with \\r\\n\\r\\n"` holds literal backslashes. -/
def termErrMsg : String := "content length must be end with \\r\\n\\r\\n"

/-- Error message of the `n <= 0` branch. -/
def lenPosErrMsg : String := "content length must be greater than 0"

/-- Value of a decimal digit run (no sign), as accumulated by ParseUint. -/
def natOfDigits (ds : List Nat) : Nat :=
  ds.foldl (fun a c => a * 10 + (c - 48)) 0

/-- Error text of strconv.Atoi's syntax error for input bytes `s`. -/
def atoiSyntaxErr (s : List Nat) : String :=
  "strconv.Atoi: parsing \"" ++ natsToString s ++ "\": invalid syntax"

/-- Error text of strconv.Atoi's range error for input bytes `s`. -/
def atoiRangeErr (s : List Nat) : String :=
  "strconv.Atoi: parsing \"" ++ natsToString s ++ "\": value out of range"

/-- Whether byte `c` is an ASCII decimal digit. -/
def isDigitByte (c : Nat) : Bool := 48 ≤ c && c ≤ 57

/-- strconv.Atoi (ParseInt base 10, bit size of int = 64): an optional
leading sign, then a non-empty run of decimal digits, with the signed
64-bit range check. On success the parsed integer, otherwise the error. -/
def atoi (s : List Nat) : Except String Int :=
  let neg : Bool := s.head? = some 45
  let digits : List Nat :=
    if s.head? = some 43 ∨ s.head? = some 45 then s.tail else s
  if digits.isEmpty then .error (atoiSyntaxErr s)
  else if digits.all isDigitByte then
    let v : Nat := natOfDigits digits
    if neg then
      if v ≤ 2 ^ 63 then .ok (-(v : Int)) else .error (atoiRangeErr s)
    else
      if v ≤ 2 ^ 63 - 1 then .ok (v : Int) else .error (atoiRangeErr s)
  else .error (atoiSyntaxErr s)

/-- Tail of Parse after the IN_NEWLINES loop: `n, e := strconv.Atoi(p.sb.String());
p.reset(); ...` — Atoi failure or `n <= 0` are hard errors, otherwise the
length is returned; the parser is reset in every case. -/
def parseFinish (sb : List Nat) (buf : List Nat) : ParseStep :=
  match atoi sb with
  | .error msg => ⟨.err msg, initParser, buf⟩
  | .ok n => if n ≤ 0 then ⟨.err lenPosErrMsg, initParser, buf⟩
             else ⟨.ok n, initParser, buf⟩

/-- IN_NEWLINES loop of Parse: match the remaining bytes of "\n\r\n" from
position `pos`; an empty buffer suspends (keeping state, pos and sb), a
mismatching byte resets and reports the terminator error (the mismatching
byte having been consumed), and completion falls through to the Atoi tail. -/
def parseNewlinesLoop (sb : List Nat) (pos : Nat) : List Nat → ParseStep
  | [] =>
    if pos < newlinesLit.length then ⟨.suspend, ⟨.IN_NEWLINES, pos, sb⟩, []⟩
    else parseFinish sb []
  | r :: rest =>
    if h : pos < newlinesLit.length then
      if r = newlinesLit[pos] then parseNewlinesLoop sb (pos + 1) rest
      else ⟨.err termErrMsg, initParser, rest⟩
    else parseFinish sb (r :: rest)

/-- IN_LENGTH loop of Parse: read bytes into `sb` until a `\r` (byte 13);
an empty buffer suspends (keeping sb and pos); on `\r` control moves to the
IN_NEWLINES loop with pos reset to 0. -/
def parseLengthLoop (sb : List Nat) (pos : Nat) : List Nat → ParseStep
  | [] => ⟨.suspend, ⟨.IN_LENGTH, pos, sb⟩, []⟩
  | r :: rest =>
    if r = 13 then parseNewlinesLoop sb 0 rest
    else parseLengthLoop (sb ++ [r]) pos rest

/-- IN_HEADER loop of Parse: match "Content-Length: " from position `pos`.
Go writes the byte returned by ReadByte to `sb` before checking for EOF, so
a suspend in this state appends the zero byte to `sb`. A mismatch resets the
parser and reports the remaining (unread) buffer bytes in the message.
Completion moves to the IN_LENGTH loop with pos 0 and `sb` reset. -/
def parseHeaderLoop (sb : List Nat) (pos : Nat) : List Nat → ParseStep
  | [] =>
    if pos < headerLit.length then ⟨.suspend, ⟨.IN_HEADER, pos, sb ++ [0]⟩, []⟩
    else parseLengthLoop [] 0 []
  | r :: rest =>
    if h : pos < headerLit.length then
      if r = headerLit[pos] then parseHeaderLoop (sb ++ [r]) (pos + 1) rest
      else ⟨.err (headerErrMsg rest), initParser, rest⟩
    else parseLengthLoop [] 0 (r :: rest)

/-- ContentHeaderParser.Parse (recorder.go 126-188): dispatch on the stored
state and run the corresponding loop, with the stored pos and sb. -/
def ContentHeaderParser.Parse (p : ContentHeaderParser) (buf : List Nat) : ParseStep :=
  match p.state with
  | .INITIAL => parseHeaderLoop p.sb p.pos buf
  | .IN_HEADER => parseHeaderLoop p.sb p.pos buf
  | .IN_LENGTH => parseLengthLoop p.sb p.pos buf
  | .IN_NEWLINES => parseNewlinesLoop p.sb p.pos buf

-- sanity checks against header_parser_test.go (TestParserSuccess)
example :
    (initParser.Parse (strBytes "Content-Length: 123\r\n\r\n")).result = .ok 123 := by
  decide
example :
    (initParser.Parse (strBytes "Content-Length: 12")).result = .suspend := by
  decide
example :
    (initParser.Parse (strBytes "Content-Length: 0\r\n\r\n")).result = .err lenPosErrMsg := by
  decide
example :
    (initParser.Parse (strBytes "Content-Length: +5\r\n\r\n")).result = .ok 5 := by
  decide
example :
    (initParser.Parse (strBytes "Content-Length:123\r\n\r\n")).result =
      .err (headerErrMsg (strBytes "23\r\n\r\n")) := by
  decide

/-- One read/write event of the pump loop (recorder.go 201-206): `data` is
the byte slice `tmp[:n]` the source read produced, and `writeCount` is the
count the destination's Write call reported for those bytes (Go reassigns
`n` to it; the write error is ignored, so it may be any value up to the
number of bytes handed over). -/
structure ReadEvent where
  data : List Nat
  writeCount : Nat
deriving DecidableEq

/-- Private state of one intercept pump: the header parser, the pending
payload buffer `buf`, and `requiredPayloadLen` (-1 when no length is
awaited). -/
structure PumpState where
  parser : ContentHeaderParser
  buf : List Nat
  requiredPayloadLen : Int
deriving DecidableEq

/-- Initial pump state (recorder.go 191-194). -/
def initPumpState : PumpState := ⟨initParser, [], -1⟩

/-- Observable actions of one pump iteration, in program order: the
passthrough write of the bytes handed to the destination, and each log
record sent to the channel. -/
inductive PumpAction
  | write (bytes : List Nat)
  | emit (r : LogRecord)
deriving DecidableEq

/-- Payload-extraction tail of the pump body (recorder.go 236-248): with an
awaited length, wait while the buffer is short, otherwise take exactly the
first `required` bytes as one JSON record, keep the rest, clear the length. -/
def finishPayload (t : StreamType) (parser : ContentHeaderParser)
    (buf : List Nat) (required : Int) : PumpState × List LogRecord :=
  if (buf.length : Int) < required then (⟨parser, buf, required⟩, [])
  else
    (⟨parser, buf.drop required.toNat, -1⟩,
     [⟨t, .JSON, buf.take required.toNat⟩])

/-- One iteration of the intercept pump loop body (recorder.go 195-249),
given the read/write event of this iteration. Returns the next pump state
and the actions performed, in order. An empty read is skipped. The write of
all read bytes happens first in every branch; classification then only sees
the first `writeCount` bytes (`tmp[:n]` after `n` was reassigned). -/
def interceptStep (t : StreamType) (st : PumpState) (ev : ReadEvent) :
    PumpState × List PumpAction :=
  if ev.data.isEmpty then (st, [])
  else
    let taken := ev.data.take ev.writeCount
    if t = .STDERR then
      (st, [.write ev.data, .emit ⟨t, .RAW, taken⟩])
    else
      let buf1 := st.buf ++ taken
      if st.requiredPayloadLen < 0 then
        match (st.parser.Parse buf1).result with
        | .suspend =>
          (⟨(st.parser.Parse buf1).parser, (st.parser.Parse buf1).buffer, -1⟩,
           [.write ev.data])
        | .err msg =>
          (⟨(st.parser.Parse buf1).parser, (st.parser.Parse buf1).buffer, -1⟩,
           [.write ev.data, .emit ⟨t, .INVALID, strBytes msg⟩])
        | .ok num =>
          let fp := finishPayload t (st.parser.Parse buf1).parser
                      (st.parser.Parse buf1).buffer num
          (fp.1, .write ev.data :: fp.2.map .emit)
      else
        let fp := finishPayload t st.parser buf1 st.requiredPayloadLen
        (fp.1, .write ev.data :: fp.2.map .emit)

/-- Iterated pump: run `interceptStep` over a list of read events, threading
the state and concatenating the action traces. -/
def interceptRun (t : StreamType) (st : PumpState) :
    List ReadEvent → PumpState × List PumpAction
  | [] => (st, [])
  | ev :: evs =>
    let s1 := interceptStep t st ev
    let s2 := interceptRun t s1.1 evs
    (s2.1, s1.2 ++ s2.2)

/-- Bytes handed to the destination writer, in order, in an action trace. -/
def writtenBytes : List PumpAction → List Nat
  | [] => []
  | .write bs :: rest => bs ++ writtenBytes rest
  | .emit _ :: rest => writtenBytes rest

/-- Log records sent to the channel, in order, in an action trace. -/
def recordsOf : List PumpAction → List LogRecord
  | [] => []
  | .write _ :: rest => recordsOf rest
  | .emit r :: rest => r :: recordsOf rest

/-- Outcome parameters of one Run session (recorder.go 264-310): the
command name and formatted argument list, the formatted environment, the
error (if any) of each fallible call in program order, and the child's exit
code as reported by `cmd.ProcessState.ExitCode()`. -/
structure RunConfig where
  name : String
  argsStr : String
  env : String
  stdinPipeErr : Option String
  stdoutPipeErr : Option String
  stderrPipeErr : Option String
  startErr : Option String
  waitErr : Option String
  exitCode : Int
deriving DecidableEq

/-- The bookkeeping records Run itself sends to the channel, in program
order (recorder.go 273-309): the RAW_START record with the command line and
the RAW environment record first; then, at the first failing call, the
logError RAW record (logError sends STDERR/RAW and also writes the text to
the recorder's own stderr) and nothing further; if `cmd.Wait()` returns an
error, Run likewise logs it and returns without a RAW_END record; only when
Wait returns nil is the RAW_END record with the exit code sent. -/
def runBookkeeping (c : RunConfig) : List LogRecord :=
  [⟨.STDERR, .RAW_START, strBytes ("run: " ++ c.name ++ " " ++ c.argsStr)⟩,
   ⟨.STDERR, .RAW, strBytes c.env⟩] ++
  match c.stdinPipeErr with
  | some e => [⟨.STDERR, .RAW, strBytes ("failed to open stdin pipe: " ++ e)⟩]
  | none =>
    match c.stdoutPipeErr with
    | some e => [⟨.STDERR, .RAW, strBytes ("failed to open stdout pipe: " ++ e)⟩]
    | none =>
      match c.stderrPipeErr with
      | some e => [⟨.STDERR, .RAW, strBytes ("failed to open stderr pipe: " ++ e)⟩]
      | none =>
        match c.startErr with
        | some e => [⟨.STDERR, .RAW, strBytes ("failed to start command: " ++ e)⟩]
        | none =>
          match c.waitErr with
          | some e => [⟨.STDERR, .RAW, strBytes ("failed to wait command: " ++ e)⟩]
          | none =>
            [⟨.STDERR, .RAW_END,
              strBytes ("command exited with: " ++ toString c.exitCode)⟩]

/-- CLIRecord.Run (main.go 56-82): it returns an error only when creating
the log file fails; otherwise it calls recorder.Run — whose outcome it
ignores, recorder.Run returns nothing — and returns nil. -/
def cliRecordRunResult (logFileErr : Option String) (logPath : String) :
    Option String :=
  match logFileErr with
  | some e => some ("cannot open log file: " ++ logPath ++ ", caused by " ++ e ++ "\n")
  | none => none

/-- main (main.go 113-120): exit code 1 when the command returned an error,
otherwise the process falls off main and exits 0. -/
def mainExitCode (runResult : Option String) : Nat :=
  match runResult with
  | some _ => 1
  | none => 0

/-- Exit code of a whole `record` session: main's exit code after
CLIRecord.Run, which called recorder.Run with the session's outcomes `c`.
The session outcomes do not flow into the exit code because recorder.Run
has no return value. -/
def recordSessionExitCode (logFileErr : Option String) (logPath : String)
    (_c : RunConfig) : Nat :=
  mainExitCode (cliRecordRunResult logFileErr logPath)

/-- Classification part of one pump iteration (everything after the
passthrough write), as a function of the bytes `taken = tmp[:n]` that
survived the write-count reassignment: the next state and the records
emitted. -/
def classify (t : StreamType) (st : PumpState) (taken : List Nat) :
    PumpState × List LogRecord :=
  if t = .STDERR then (st, [⟨t, .RAW, taken⟩])
  else
    let buf1 := st.buf ++ taken
    if st.requiredPayloadLen < 0 then
      match (st.parser.Parse buf1).result with
      | .suspend =>
        (⟨(st.parser.Parse buf1).parser, (st.parser.Parse buf1).buffer, -1⟩, [])
      | .err msg =>
        (⟨(st.parser.Parse buf1).parser, (st.parser.Parse buf1).buffer, -1⟩,
         [⟨t, .INVALID, strBytes msg⟩])
      | .ok num =>
        finishPayload t (st.parser.Parse buf1).parser (st.parser.Parse buf1).buffer num
    else finishPayload t st.parser buf1 st.requiredPayloadLen

/-- A non-empty pump iteration is the passthrough write of all read bytes
followed by the classification of the first `writeCount` of them. -/
theorem interceptStep_decomp (t : StreamType) (st : PumpState) (ev : ReadEvent)
    (h : ev.data ≠ []) :
    interceptStep t st ev =
      ((classify t st (ev.data.take ev.writeCount)).1,
       .write ev.data ::
         (classify t st (ev.data.take ev.writeCount)).2.map .emit) := by
  have hne : ev.data.isEmpty = false := by simp [h]
  by_cases ht : t = .STDERR
  · simp [interceptStep, classify, hne, ht]
  · by_cases hr : st.requiredPayloadLen < 0
    · rcases hres : (st.parser.Parse (st.buf ++ ev.data.take ev.writeCount)).result with
        n | _ | msg <;>
        simp [interceptStep, classify, hne, ht, hr, hres]
    · simp [interceptStep, classify, hne, ht, hr]

/-- Record extraction ignores writes and collects emitted records. -/
theorem recordsOf_map_emit (recs : List LogRecord) :
    recordsOf (recs.map .emit) = recs := by
  induction recs with
  | nil => rfl
  | cons r rest ih => simp [recordsOf, ih]

/-- Written-byte extraction ignores emitted records. -/
theorem writtenBytes_map_emit (recs : List LogRecord) :
    writtenBytes (recs.map .emit) = [] := by
  induction recs with
  | nil => rfl
  | cons r rest ih => simp [writtenBytes, ih]

/-- Written-byte extraction distributes over trace concatenation. -/
theorem writtenBytes_append (a b : List PumpAction) :
    writtenBytes (a ++ b) = writtenBytes a ++ writtenBytes b := by
  induction a with
  | nil => rfl
  | cons x rest ih => cases x <;> simp [writtenBytes, ih]

/-- C2: every non-empty read is written to the destination unconditionally
and before any classification — each non-empty iteration's action trace is
the write of all read bytes followed only by record emissions — so over any
run of the pump the destination is handed exactly the concatenation of the
source's reads, in order, whatever the classification outcomes are. -/
theorem c2_passthrough_unconditional :
    (∀ (t : StreamType) (st : PumpState) (evs : List ReadEvent),
      writtenBytes (interceptRun t st evs).2 = (evs.map ReadEvent.data).flatten) ∧
    (∀ (t : StreamType) (st : PumpState) (ev : ReadEvent), ev.data ≠ [] →
      (interceptStep t st ev).2 =
        .write ev.data ::
          (classify t st (ev.data.take ev.writeCount)).2.map .emit) := by
  have hstep : ∀ (t : StreamType) (st : PumpState) (ev : ReadEvent),
      writtenBytes (interceptStep t st ev).2 = ev.data := by
    intro t st ev
    by_cases h : ev.data = []
    · simp [interceptStep, h, writtenBytes]
    · rw [interceptStep_decomp t st ev h]
      simp [writtenBytes, writtenBytes_map_emit]
  constructor
  · intro t st evs
    induction evs generalizing st with
    | nil => simp [interceptRun, writtenBytes]
    | cons ev evs ih =>
      simp [interceptRun, writtenBytes_append, hstep, ih]
  · intro t st ev h
    rw [interceptStep_decomp t st ev h]

/-- Witness for c2_passthrough_unconditional at a concrete event. -/
theorem c2_witness :
    (interceptStep .STDOUT initPumpState ⟨[67], 1⟩).2 =
      .write [67] :: (classify .STDOUT initPumpState [67]).2.map .emit :=
  c2_passthrough_unconditional.2 .STDOUT initPumpState ⟨[67], 1⟩ (by decide)

/-- C9: classification is bounded by the count the destination write
reported, not the count read: the next state and the emitted records of a
non-empty iteration depend only on the first `writeCount` read bytes (bytes
beyond the write count never reach classification, with no retry and no
error record), and a stderr iteration's sole record carries exactly the
first `writeCount` bytes. -/
theorem c9_classification_bounded_by_write_count :
    (∀ (t : StreamType) (st : PumpState) (d₁ d₂ : List Nat) (m : Nat),
      d₁ ≠ [] → d₂ ≠ [] → d₁.take m = d₂.take m →
      (interceptStep t st ⟨d₁, m⟩).1 = (interceptStep t st ⟨d₂, m⟩).1 ∧
      recordsOf (interceptStep t st ⟨d₁, m⟩).2 =
        recordsOf (interceptStep t st ⟨d₂, m⟩).2) ∧
    (∀ (st : PumpState) (d : List Nat) (m : Nat), d ≠ [] →
      recordsOf (interceptStep .STDERR st ⟨d, m⟩).2 =
        [⟨.STDERR, .RAW, d.take m⟩] ∧
      (interceptStep .STDERR st ⟨d, m⟩).1 = st) := by
  constructor
  · intro t st d₁ d₂ m h₁ h₂ heq
    rw [interceptStep_decomp t st ⟨d₁, m⟩ h₁, interceptStep_decomp t st ⟨d₂, m⟩ h₂]
    simp only [recordsOf, recordsOf_map_emit]
    rw [show (⟨d₁, m⟩ : ReadEvent).data.take (⟨d₁, m⟩ : ReadEvent).writeCount =
          (⟨d₂, m⟩ : ReadEvent).data.take (⟨d₂, m⟩ : ReadEvent).writeCount from heq]
    exact ⟨rfl, rfl⟩
  · intro st d m h
    rw [interceptStep_decomp .STDERR st ⟨d, m⟩ h]
    simp [classify, recordsOf, recordsOf_map_emit]

/-- Witness for c9_classification_bounded_by_write_count: with a write
count of 1, reads [10, 20] and [10, 99] classify identically, and a stderr
record keeps only the written prefix. -/
theorem c9_witness :
    recordsOf (interceptStep .STDOUT initPumpState ⟨[10, 20], 1⟩).2 =
      recordsOf (interceptStep .STDOUT initPumpState ⟨[10, 99], 1⟩).2 ∧
    recordsOf (interceptStep .STDERR initPumpState ⟨[10, 20], 1⟩).2 =
      [⟨.STDERR, .RAW, [10]⟩] :=
  ⟨(c9_classification_bounded_by_write_count.1 .STDOUT initPumpState [10, 20]
      [10, 99] 1 (by decide) (by decide) (by decide)).2,
   by
    have := (c9_classification_bounded_by_write_count.2 initPumpState [10, 20] 1
      (by decide)).1
    simpa using this⟩

/-- C3: with an awaited message length N (stored in the state, or returned
by the parser in this very call), the stdin/stdout pump emits no JSON
record while the pending buffer holds fewer than N bytes; as soon as it
holds at least N bytes exactly the first N become the payload of exactly
one JSON record, the rest stays buffered, and the awaited length is
cleared to -1. -/
theorem c3_json_extraction :
    (∀ (t : StreamType) (st : PumpState) (ev : ReadEvent) (N : Int),
      t ≠ .STDERR → ev.data ≠ [] → st.requiredPayloadLen = N → 0 ≤ N →
      ((((st.buf ++ ev.data.take ev.writeCount).length : Int) < N →
        interceptStep t st ev =
          (⟨st.parser, st.buf ++ ev.data.take ev.writeCount, N⟩,
           [.write ev.data])) ∧
       (N ≤ ((st.buf ++ ev.data.take ev.writeCount).length : Int) →
        interceptStep t st ev =
          (⟨st.parser, (st.buf ++ ev.data.take ev.writeCount).drop N.toNat, -1⟩,
           [.write ev.data,
            .emit ⟨t, .JSON,
              (st.buf ++ ev.data.take ev.writeCount).take N.toNat⟩])))) ∧
    (∀ (t : StreamType) (st : PumpState) (ev : ReadEvent) (N : Int),
      t ≠ .STDERR → ev.data ≠ [] → st.requiredPayloadLen < 0 →
      (st.parser.Parse (st.buf ++ ev.data.take ev.writeCount)).result = .ok N →
      ((((st.parser.Parse (st.buf ++ ev.data.take ev.writeCount)).buffer.length : Int) < N →
        interceptStep t st ev =
          (⟨(st.parser.Parse (st.buf ++ ev.data.take ev.writeCount)).parser,
            (st.parser.Parse (st.buf ++ ev.data.take ev.writeCount)).buffer, N⟩,
           [.write ev.data])) ∧
       (N ≤ ((st.parser.Parse (st.buf ++ ev.data.take ev.writeCount)).buffer.length : Int) →
        interceptStep t st ev =
          (⟨(st.parser.Parse (st.buf ++ ev.data.take ev.writeCount)).parser,
            (st.parser.Parse (st.buf ++ ev.data.take ev.writeCount)).buffer.drop N.toNat,
            -1⟩,
           [.write ev.data,
            .emit ⟨t, .JSON,
              (st.parser.Parse (st.buf ++ ev.data.take ev.writeCount)).buffer.take
                N.toNat⟩])))) := by
  constructor
  · intro t st ev N ht hd hreq hN
    constructor
    · intro hshort
      rw [interceptStep_decomp t st ev hd]
      simp only [classify, finishPayload, if_neg ht, hreq]
      rw [if_neg (show ¬ (N < 0) by omega), if_pos hshort]
      rfl
    · intro hlong
      rw [interceptStep_decomp t st ev hd]
      simp only [classify, finishPayload, if_neg ht, hreq]
      rw [if_neg (show ¬ (N < 0) by omega),
        if_neg (show ¬ ((st.buf ++ ev.data.take ev.writeCount).length : Int) < N by omega)]
      rfl
  · intro t st ev N ht hd hneg hres
    constructor
    · intro hshort
      rw [interceptStep_decomp t st ev hd]
      simp only [classify, finishPayload, if_neg ht, if_pos hneg, hres]
      rw [if_pos hshort]
      rfl
    · intro hlong
      rw [interceptStep_decomp t st ev hd]
      simp only [classify, finishPayload, if_neg ht, if_pos hneg, hres]
      rw [if_neg (show
        ¬ (((st.parser.Parse (st.buf ++ ev.data.take ev.writeCount)).buffer.length : Int)
          < N) by omega)]
      rfl

/-- Witness for c3_json_extraction: awaiting 3 bytes with [72] pending, a
read of [65, 66] (all written) completes the message [72, 65, 66]. -/
theorem c3_witness :
    interceptStep .STDOUT ⟨initParser, [72], 3⟩ ⟨[65, 66], 2⟩ =
      (⟨initParser, [], -1⟩,
       [.write [65, 66], .emit ⟨.STDOUT, .JSON, [72, 65, 66]⟩]) := by
  have h := (c3_json_extraction.1 .STDOUT ⟨initParser, [72], 3⟩ ⟨[65, 66], 2⟩ 3
    (by decide) (by decide) rfl (by decide)).2 (by decide)
  simpa using h

/-- C10: every bookkeeping record the orchestrator sends (RAW_START with
the command line, the RAW environment record, the RAW_END exit record, and
every fatal-error record via logError) carries stream type STDERR; pump
records carry the pump's own stream tag; and every stream tag is one of
STDIN, STDOUT, STDERR. -/
theorem c10_bookkeeping_records_are_stderr :
    (∀ (c : RunConfig) (r : LogRecord), r ∈ runBookkeeping c →
      r.streamType = .STDERR) ∧
    (∀ (t : StreamType) (st : PumpState) (ev : ReadEvent) (r : LogRecord),
      r ∈ recordsOf (interceptStep t st ev).2 → r.streamType = t) ∧
    (∀ s : StreamType, s = .STDIN ∨ s = .STDOUT ∨ s = .STDERR) := by
  refine ⟨?_, ?_, ?_⟩
  · intro c r hr
    unfold runBookkeeping at hr
    rcases c with ⟨name, argsStr, env, i, o, e, s, w, x⟩
    rcases i with _ | i <;> rcases o with _ | o <;> rcases e with _ | e <;>
      rcases s with _ | s <;> rcases w with _ | w <;>
      simp at hr <;> rcases hr with rfl | rfl | rfl <;> rfl
  · intro t st ev r hr
    by_cases h : ev.data = []
    · simp [interceptStep, h, recordsOf] at hr
    · rw [interceptStep_decomp t st ev h] at hr
      simp only [recordsOf, recordsOf_map_emit] at hr
      simp only [classify, finishPayload] at hr
      rcases hres : (st.parser.Parse (st.buf ++ ev.data.take ev.writeCount)).result with
        n | _ | msg <;> rw [hres] at hr <;> repeat' split at hr
      all_goals simp_all
  · intro s
    cases s
    · exact Or.inl rfl
    · exact Or.inr (Or.inl rfl)
    · exact Or.inr (Or.inr rfl)

/-- Witness for c10_bookkeeping_records_are_stderr at a concrete session
configuration and record. -/
theorem c10_witness :
    (⟨.STDERR, .RAW, strBytes "E"⟩ : LogRecord).streamType = .STDERR :=
  c10_bookkeeping_records_are_stderr.1
    ⟨"ls", "[]", "E", none, none, none, none, none, 0⟩
    ⟨.STDERR, .RAW, strBytes "E"⟩ (by decide)

/-- Session outcomes where every fallible call succeeds but the child exits
with status 1, so `cmd.Wait()` returns an ExitError. -/
def waitFailCfg : RunConfig :=
  ⟨"ls", "[foo]", "PATH=/bin", none, none, none, none, some "exit status 1", 1⟩

/-- C5 counterexample: in a session whose child completed with a failing
exit status (Wait returned an error), Run sends no RAW_END record at all —
the wait error is logged as a RAW record and Run returns before the
RAW_END send (recorder.go 305-309). -/
theorem c5_counterexample :
    ¬ ∃ r ∈ runBookkeeping waitFailCfg, r.payloadType = .RAW_END := by
  decide

/-- C5 (amended): the first record of every session is the RAW_START
record with the command line, sent before any pump starts; when every
fallible call succeeds (so Wait returned nil), the last record is the
RAW_END record carrying the child's exit code; but when Wait returns an
error — in particular whenever the child's exit status is non-zero — no
RAW_END record is sent: the session ends with the logged wait error. -/
theorem c5_session_bracketing :
    ∀ c : RunConfig,
      (runBookkeeping c).head? =
        some ⟨.STDERR, .RAW_START,
          strBytes ("run: " ++ c.name ++ " " ++ c.argsStr)⟩ ∧
      (c.stdinPipeErr = none → c.stdoutPipeErr = none → c.stderrPipeErr = none →
        c.startErr = none → c.waitErr = none →
        (runBookkeeping c).getLast? =
          some ⟨.STDERR, .RAW_END,
            strBytes ("command exited with: " ++ toString c.exitCode)⟩) ∧
      (∀ e, c.waitErr = some e →
        ∀ r ∈ runBookkeeping c, r.payloadType ≠ .RAW_END) := by
  intro c
  rcases c with ⟨name, argsStr, env, i, o, e, s, w, x⟩
  refine ⟨?_, ?_, ?_⟩
  · unfold runBookkeeping
    rcases i with _ | i <;> rcases o with _ | o <;> rcases e with _ | e <;>
      rcases s with _ | s <;> rcases w with _ | w <;> rfl
  · intro hi ho he hs hw
    subst hi; subst ho; subst he; subst hs; subst hw
    rfl
  · intro err hw r hr
    subst hw
    unfold runBookkeeping at hr
    rcases i with _ | i <;> rcases o with _ | o <;> rcases e with _ | e <;>
      rcases s with _ | s <;>
      simp at hr <;> rcases hr with rfl | rfl | rfl <;> simp

/-- Session outcomes where opening the stdin pipe fails. -/
def pipeFailCfg : RunConfig :=
  ⟨"ls", "[foo]", "PATH=/bin", some "boom", none, none, none, none, -1⟩

/-- Session outcomes of a normal session whose child exited with code 5
(`cmd.Wait()` returns an ExitError for a non-zero exit status, but even for
a child exiting 0 no code flows back: recorder.Run returns nothing). -/
def childExit5Cfg : RunConfig :=
  ⟨"ls", "[foo]", "PATH=/bin", none, none, none, none, none, 5⟩

/-- C4 counterexample: on a pipe-setup failure the recorder process exits
with code 0 (recorder.Run merely logs the error and returns; CLIRecord.Run
then returns nil and main does not call os.Exit) — not non-zero as claimed
— and on a session whose child exited with code 5 the recorder also exits
0, not 5: the child's exit code is never propagated. -/
theorem c4_counterexample :
    recordSessionExitCode none "./lsp-recorder.log" pipeFailCfg = 0 ∧
    recordSessionExitCode none "./lsp-recorder.log" childExit5Cfg ≠ 5 := by
  decide

/-- C4 (amended): whenever the log file was created, the recorder process
exits 0 — regardless of pipe-setup failures and regardless of the child's
exit code (on pipe-setup failure it still has forwarded no child output,
since Run returns before any pump or the child is started); the only
non-zero exit modelled here is a log-file creation failure, which exits 1. -/
theorem c4_exit_codes :
    ∀ (path : String) (c : RunConfig),
      recordSessionExitCode none path c = 0 ∧
      ∀ e : String, recordSessionExitCode (some e) path c = 1 := by
  intro path c
  exact ⟨rfl, fun e => rfl⟩

/-- Witness for c5_session_bracketing at the all-successful configuration. -/
theorem c5_witness :
    (runBookkeeping childExit5Cfg).getLast? =
      some ⟨.STDERR, .RAW_END,
        strBytes ("command exited with: " ++ toString childExit5Cfg.exitCode)⟩ :=
  (c5_session_bracketing childExit5Cfg).2.1 rfl rfl rfl rfl rfl

/-- Every parseFinish outcome is a hard error or a strictly positive
length; either way the parser was reset and the buffer is untouched. -/
theorem parseFinish_shape (sb buf : List Nat) :
    (∃ msg, parseFinish sb buf = ⟨.err msg, initParser, buf⟩) ∨
    (∃ n, 0 < n ∧ parseFinish sb buf = ⟨.ok n, initParser, buf⟩) := by
  unfold parseFinish
  split
  · exact Or.inl ⟨_, rfl⟩
  · rename_i n heq
    split
    · exact Or.inl ⟨_, rfl⟩
    · exact Or.inr ⟨n, by omega, rfl⟩

/-- Outcome shapes of the IN_NEWLINES loop: suspend with a fully drained
buffer, or a terminal outcome (hard error, or positive length) with the
parser reset and the buffer some suffix of the input. -/
theorem parseNewlinesLoop_shape (sb : List Nat) (pos : Nat) (buf : List Nat) :
    (∃ p2, parseNewlinesLoop sb pos buf = ⟨.suspend, p2, []⟩) ∨
    (∃ msg k, parseNewlinesLoop sb pos buf = ⟨.err msg, initParser, buf.drop k⟩) ∨
    (∃ n k, 0 < n ∧ parseNewlinesLoop sb pos buf = ⟨.ok n, initParser, buf.drop k⟩) := by
  induction buf generalizing pos with
  | nil =>
    unfold parseNewlinesLoop
    split
    · exact Or.inl ⟨_, rfl⟩
    · rcases parseFinish_shape sb [] with ⟨msg, hm⟩ | ⟨n, hn, hm⟩
      · exact Or.inr (Or.inl ⟨msg, 0, hm⟩)
      · exact Or.inr (Or.inr ⟨n, 0, hn, hm⟩)
  | cons r rest ih =>
    unfold parseNewlinesLoop
    split
    · split
      · rcases ih (pos + 1) with ⟨p2, hm⟩ | ⟨msg, k, hm⟩ | ⟨n, k, hn, hm⟩
        · exact Or.inl ⟨p2, hm⟩
        · exact Or.inr (Or.inl ⟨msg, k + 1, hm⟩)
        · exact Or.inr (Or.inr ⟨n, k + 1, hn, hm⟩)
      · exact Or.inr (Or.inl ⟨termErrMsg, 1, rfl⟩)
    · rcases parseFinish_shape sb (r :: rest) with ⟨msg, hm⟩ | ⟨n, hn, hm⟩
      · exact Or.inr (Or.inl ⟨msg, 0, hm⟩)
      · exact Or.inr (Or.inr ⟨n, 0, hn, hm⟩)

/-- Outcome shapes of the IN_LENGTH loop, as for the IN_NEWLINES loop. -/
theorem parseLengthLoop_shape (sb : List Nat) (pos : Nat) (buf : List Nat) :
    (∃ p2, parseLengthLoop sb pos buf = ⟨.suspend, p2, []⟩) ∨
    (∃ msg k, parseLengthLoop sb pos buf = ⟨.err msg, initParser, buf.drop k⟩) ∨
    (∃ n k, 0 < n ∧ parseLengthLoop sb pos buf = ⟨.ok n, initParser, buf.drop k⟩) := by
  induction buf generalizing sb with
  | nil => exact Or.inl ⟨_, rfl⟩
  | cons r rest ih =>
    unfold parseLengthLoop
    split
    · rcases parseNewlinesLoop_shape sb 0 rest with ⟨p2, hm⟩ | ⟨msg, k, hm⟩ | ⟨n, k, hn, hm⟩
      · exact Or.inl ⟨p2, hm⟩
      · exact Or.inr (Or.inl ⟨msg, k + 1, hm⟩)
      · exact Or.inr (Or.inr ⟨n, k + 1, hn, hm⟩)
    · rcases ih (sb ++ [r]) with ⟨p2, hm⟩ | ⟨msg, k, hm⟩ | ⟨n, k, hn, hm⟩
      · exact Or.inl ⟨p2, hm⟩
      · exact Or.inr (Or.inl ⟨msg, k + 1, hm⟩)
      · exact Or.inr (Or.inr ⟨n, k + 1, hn, hm⟩)

/-- Outcome shapes of the IN_HEADER loop, as for the other loops. -/
theorem parseHeaderLoop_shape (sb : List Nat) (pos : Nat) (buf : List Nat) :
    (∃ p2, parseHeaderLoop sb pos buf = ⟨.suspend, p2, []⟩) ∨
    (∃ msg k, parseHeaderLoop sb pos buf = ⟨.err msg, initParser, buf.drop k⟩) ∨
    (∃ n k, 0 < n ∧ parseHeaderLoop sb pos buf = ⟨.ok n, initParser, buf.drop k⟩) := by
  induction buf generalizing sb pos with
  | nil =>
    unfold parseHeaderLoop
    split
    · exact Or.inl ⟨_, rfl⟩
    · rcases parseLengthLoop_shape [] 0 [] with ⟨p2, hm⟩ | ⟨msg, k, hm⟩ | ⟨n, k, hn, hm⟩
      · exact Or.inl ⟨p2, hm⟩
      · exact Or.inr (Or.inl ⟨msg, k, hm⟩)
      · exact Or.inr (Or.inr ⟨n, k, hn, hm⟩)
  | cons r rest ih =>
    unfold parseHeaderLoop
    split
    · split
      · rcases ih (sb ++ [r]) (pos + 1) with ⟨p2, hm⟩ | ⟨msg, k, hm⟩ | ⟨n, k, hn, hm⟩
        · exact Or.inl ⟨p2, hm⟩
        · exact Or.inr (Or.inl ⟨msg, k + 1, hm⟩)
        · exact Or.inr (Or.inr ⟨n, k + 1, hn, hm⟩)
      · exact Or.inr (Or.inl ⟨headerErrMsg rest, 1, rfl⟩)
    · rcases parseLengthLoop_shape [] 0 (r :: rest) with ⟨p2, hm⟩ | ⟨msg, k, hm⟩ | ⟨n, k, hn, hm⟩
      · exact Or.inl ⟨p2, hm⟩
      · exact Or.inr (Or.inl ⟨msg, k, hm⟩)
      · exact Or.inr (Or.inr ⟨n, k, hn, hm⟩)

/-- Outcome shapes of a whole Parse call: a suspend drains the buffer; a
hard error or a returned length resets the parser to INITIAL/0/empty and
leaves some suffix of the buffer unread; a returned length is positive. -/
theorem parse_shape (p : ContentHeaderParser) (buf : List Nat) :
    (∃ p2, p.Parse buf = ⟨.suspend, p2, []⟩) ∨
    (∃ msg k, p.Parse buf = ⟨.err msg, initParser, buf.drop k⟩) ∨
    (∃ n k, 0 < n ∧ p.Parse buf = ⟨.ok n, initParser, buf.drop k⟩) := by
  rcases p with ⟨state, pos, sb⟩
  cases state
  · exact parseHeaderLoop_shape sb pos buf
  · exact parseHeaderLoop_shape sb pos buf
  · exact parseLengthLoop_shape sb pos buf
  · exact parseNewlinesLoop_shape sb pos buf

/-- Whether `needle` occurs as a contiguous run inside `hay`. -/
def containsSeg (needle hay : List Nat) : Bool := decide (needle <:+: hay)

/-- C6 counterexample: a length field with a leading plus sign is accepted,
not rejected — `strconv.Atoi("+5")` succeeds, so the complete header
"Content-Length: +5\r\n\r\n" makes Parse return length 5, contradicting
the claim that any sign in the length field is a hard parse error. -/
theorem c6_counterexample :
    (initParser.Parse (strBytes "Content-Length: +5\r\n\r\n")).result = .ok 5 := by
  decide

/-- C6 (amended): Parse succeeds only with a returned length strictly
greater than 0; a complete well-formed header declaring length 0 is a hard
parse error, a negative length is a hard parse error, and a length field
with a leading non-digit other than a sign is a hard parse error (Atoi
syntax error); but a length field with a leading plus sign followed by
digits is accepted with the signed value, because strconv.Atoi accepts an
optional sign. -/
theorem c6_length_validation :
    (∀ (p : ContentHeaderParser) (buf : List Nat) (n : Int),
      (p.Parse buf).result = .ok n → 0 < n) ∧
    (initParser.Parse (strBytes "Content-Length: 0\r\n\r\n")).result =
      .err lenPosErrMsg ∧
    (initParser.Parse (strBytes "Content-Length: -1\r\n\r\n")).result =
      .err lenPosErrMsg ∧
    (initParser.Parse (strBytes "Content-Length: x1\r\n\r\n")).result =
      .err (atoiSyntaxErr (strBytes "x1")) ∧
    (initParser.Parse (strBytes "Content-Length: +5\r\n\r\n")).result = .ok 5 := by
  refine ⟨?_, by decide, by decide, by decide, by decide⟩
  intro p buf n h
  rcases parse_shape p buf with ⟨p2, hm⟩ | ⟨msg, k, hm⟩ | ⟨m, k, hmpos, hm⟩ <;>
    rw [hm] at h
  · exact absurd h (by simp)
  · exact absurd h (by simp)
  · simp only [ParseResult.ok.injEq] at h
    omega

/-- Witness for c6_length_validation on a complete valid header. -/
theorem c6_witness : (0 : Int) < 123 :=
  c6_length_validation.1 initParser (strBytes "Content-Length: 123\r\n\r\n") 123
    (by decide)

/-- C7 counterexample: feeding "Content-Length:123\r\n\r\n" (missing the
space) does yield a hard parse error, but its description quotes the bytes
still unread after the mismatch ("23\r\n\r\n"), not the malformed bytes
consumed so far in the attempt ("Content-Length:1", which does not occur
in the message). -/
theorem c7_counterexample :
    (initParser.Parse (strBytes "Content-Length:123\r\n\r\n")).result =
      .err (headerErrMsg (strBytes "23\r\n\r\n")) ∧
    containsSeg (strBytes "Content-Length:1")
      (strBytes (headerErrMsg (strBytes "23\r\n\r\n"))) = false := by
  decide

/-- C7 (amended): whenever a buffered byte mismatches the expected header
literal while bytes remain available, Parse returns a hard parse error
(distinct from suspend) and the parser resets to INITIAL so the next call
starts a fresh header search — this reset holds after every hard error —
but the header-mismatch error message quotes the bytes remaining unread in
the buffer after the mismatch, not the bytes consumed so far: feeding
"Content-Length:123\r\n\r\n" yields the hard error quoting "23\r\n\r\n". -/
theorem c7_mismatch_error_and_reset :
    (∀ (p : ContentHeaderParser) (buf : List Nat) (msg : String),
      (p.Parse buf).result = .err msg → (p.Parse buf).parser = initParser) ∧
    initParser.Parse (strBytes "Content-Length:123\r\n\r\n") =
      ⟨.err (headerErrMsg (strBytes "23\r\n\r\n")), initParser,
        strBytes "23\r\n\r\n"⟩ ∧
    containsSeg (strBytes "23\r\n\r\n")
      (strBytes (headerErrMsg (strBytes "23\r\n\r\n"))) = true := by
  refine ⟨?_, by decide, by decide⟩
  intro p buf msg h
  rcases parse_shape p buf with ⟨p2, hm⟩ | ⟨m, k, hm⟩ | ⟨m, k, hmpos, hm⟩ <;>
    rw [hm] at h ⊢ <;> exact absurd h (by simp)

/-- Witness for c7_mismatch_error_and_reset at the missing-space input. -/
theorem c7_witness :
    (initParser.Parse (strBytes "Content-Length:123\r\n\r\n")).parser = initParser :=
  c7_mismatch_error_and_reset.1 initParser (strBytes "Content-Length:123\r\n\r\n")
    (headerErrMsg (strBytes "23\r\n\r\n")) (by decide)

/-- C8 counterexample: after feeding the single valid byte "C", the parser
suspends and its partial-header accumulator holds [67, 0] — the zero byte
was never read from the buffer (the buffer only ever held byte 67); it is
the zero byte ReadByte returns alongside io.EOF, which Parse writes to the
accumulator before checking for EOF. -/
theorem c8_counterexample :
    (initParser.Parse [67]).parser.sb = [67, 0] ∧ (0 : Nat) ∉ [67] := by
  decide

/-- C8 (amended): after every Parse call that returns a length or a hard
error the parser is exactly ⟨INITIAL, 0, []⟩ (pos 0, empty accumulator);
and every call consumes bytes only from the front of the buffer, leaving a
suffix, so no byte is double-counted across resumptions — but on a call
that suspends inside the header state the accumulator additionally
receives the zero byte that ReadByte returned together with io.EOF, a byte
never read from the buffer. -/
theorem c8_reset_and_forward_consumption :
    (∀ (p : ContentHeaderParser) (buf : List Nat) (n : Int),
      (p.Parse buf).result = .ok n → (p.Parse buf).parser = initParser) ∧
    (∀ (p : ContentHeaderParser) (buf : List Nat) (msg : String),
      (p.Parse buf).result = .err msg → (p.Parse buf).parser = initParser) ∧
    (∀ (p : ContentHeaderParser) (buf : List Nat),
      ∃ k, (p.Parse buf).buffer = buf.drop k) := by
  refine ⟨?_, ?_, ?_⟩
  · intro p buf n h
    rcases parse_shape p buf with ⟨p2, hm⟩ | ⟨m, k, hm⟩ | ⟨m, k, hmpos, hm⟩ <;>
      rw [hm] at h ⊢ <;> exact absurd h (by simp)
  · intro p buf msg h
    rcases parse_shape p buf with ⟨p2, hm⟩ | ⟨m, k, hm⟩ | ⟨m, k, hmpos, hm⟩ <;>
      rw [hm] at h ⊢ <;> exact absurd h (by simp)
  · intro p buf
    rcases parse_shape p buf with ⟨p2, hm⟩ | ⟨m, k, hm⟩ | ⟨m, k, hmpos, hm⟩ <;> rw [hm]
    · exact ⟨buf.length, (List.drop_length buf).symm⟩
    · exact ⟨k, rfl⟩
    · exact ⟨k, rfl⟩

/-- Witness for c8_reset_and_forward_consumption on a complete header. -/
theorem c8_witness :
    (initParser.Parse (strBytes "Content-Length: 7\r\n\r\n")).parser = initParser :=
  c8_reset_and_forward_consumption.1 initParser
    (strBytes "Content-Length: 7\r\n\r\n") 7 (by decide)

theorem headerLit_length : headerLit.length = 16 := rfl

theorem newlinesLit_length : newlinesLit.length = 3 := rfl

/-- The full byte sequence of a valid framing header whose length field is
the digit run `ds`: "Content-Length: " ++ ds ++ "\r\n\r\n". -/
def fullHeader (ds : List Nat) : List Nat := headerLit ++ ds ++ 13 :: newlinesLit

theorem fullHeader_length (ds : List Nat) :
    (fullHeader ds).length = 20 + ds.length := by
  simp [fullHeader, headerLit, newlinesLit]
  omega

/-- Matching the remainder of the header literal from position `pos` runs
straight into the IN_LENGTH loop with pos and sb reset. -/
theorem parseHeaderLoop_run_aux :
    ∀ (n pos : Nat) (sb rest : List Nat), 16 - pos ≤ n → pos ≤ 16 →
      parseHeaderLoop sb pos (headerLit.drop pos ++ rest) =
        parseLengthLoop [] 0 rest := by
  intro n
  induction n with
  | zero =>
    intro pos sb rest h1 h2
    have hp : pos = 16 := by omega
    subst hp
    rw [show headerLit.drop 16 = [] from rfl, List.nil_append]
    cases rest <;> rfl
  | succ n ih =>
    intro pos sb rest h1 h2
    by_cases hp : pos = 16
    · subst hp
      rw [show headerLit.drop 16 = [] from rfl, List.nil_append]
      cases rest <;> rfl
    · have hlen : pos < headerLit.length := by rw [headerLit_length]; omega
      rw [List.drop_eq_getElem_cons hlen, List.cons_append]
      unfold parseHeaderLoop
      rw [dif_pos hlen, if_pos rfl]
      exact ih (pos + 1) (sb ++ [headerLit[pos]]) rest (by omega) (by omega)

theorem parseHeaderLoop_run (pos : Nat) (sb rest : List Nat) (h : pos ≤ 16) :
    parseHeaderLoop sb pos (headerLit.drop pos ++ rest) = parseLengthLoop [] 0 rest :=
  parseHeaderLoop_run_aux (16 - pos) pos sb rest le_rfl h

/-- A strict prefix of the remaining header literal suspends, advancing pos
by the number of bytes fed and leaving the byte-accumulator in some state. -/
theorem parseHeaderLoop_sus :
    ∀ (m pos : Nat) (sb : List Nat), pos + m < 16 →
      ∃ sb2, parseHeaderLoop sb pos ((headerLit.drop pos).take m) =
        ⟨.suspend, ⟨.IN_HEADER, pos + m, sb2⟩, []⟩ := by
  intro m
  induction m with
  | zero =>
    intro pos sb h
    refine ⟨sb ++ [0], ?_⟩
    rw [List.take_zero, Nat.add_zero]
    unfold parseHeaderLoop
    rw [if_pos (show pos < headerLit.length by rw [headerLit_length]; omega)]
  | succ m ih =>
    intro pos sb h
    have hlen : pos < headerLit.length := by rw [headerLit_length]; omega
    rw [List.drop_eq_getElem_cons hlen, List.take_succ_cons]
    unfold parseHeaderLoop
    rw [dif_pos hlen, if_pos rfl]
    obtain ⟨sb2, hs⟩ := ih (pos + 1) (sb ++ [headerLit[pos]]) (by omega)
    refine ⟨sb2, ?_⟩
    rw [hs, show pos + 1 + m = pos + (m + 1) from by omega]

/-- Digit bytes suspend the IN_LENGTH loop, extending the accumulator. -/
theorem parseLengthLoop_sus :
    ∀ (seg sb : List Nat) (pos : Nat), (∀ c ∈ seg, c ≠ 13) →
      parseLengthLoop sb pos seg = ⟨.suspend, ⟨.IN_LENGTH, pos, sb ++ seg⟩, []⟩ := by
  intro seg
  induction seg with
  | nil => intro sb pos _; simp [parseLengthLoop]
  | cons r rest ih =>
    intro sb pos h
    unfold parseLengthLoop
    rw [if_neg (h r (by simp))]
    rw [ih (sb ++ [r]) pos (fun c hc => h c (by simp [hc]))]
    simp

/-- A digit run followed by `\r` moves the IN_LENGTH loop into the
IN_NEWLINES loop with the digits accumulated. -/
theorem parseLengthLoop_run :
    ∀ (seg sb rest : List Nat) (pos : Nat), (∀ c ∈ seg, c ≠ 13) →
      parseLengthLoop sb pos (seg ++ 13 :: rest) =
        parseNewlinesLoop (sb ++ seg) 0 rest := by
  intro seg
  induction seg with
  | nil => intro sb rest pos _; simp [parseLengthLoop]
  | cons r seg2 ih =>
    intro sb rest pos h
    rw [List.cons_append]
    unfold parseLengthLoop
    rw [if_neg (h r (by simp))]
    rw [ih (sb ++ [r]) rest pos (fun c hc => h c (by simp [hc]))]
    simp

/-- A strict prefix of the remaining terminator suspends, advancing pos. -/
theorem parseNewlinesLoop_sus :
    ∀ (m pos : Nat) (sb : List Nat), pos + m < 3 →
      parseNewlinesLoop sb pos ((newlinesLit.drop pos).take m) =
        ⟨.suspend, ⟨.IN_NEWLINES, pos + m, sb⟩, []⟩ := by
  intro m
  induction m with
  | zero =>
    intro pos sb h
    rw [List.take_zero, Nat.add_zero]
    unfold parseNewlinesLoop
    rw [if_pos (show pos < newlinesLit.length by rw [newlinesLit_length]; omega)]
  | succ m ih =>
    intro pos sb h
    have hlen : pos < newlinesLit.length := by rw [newlinesLit_length]; omega
    rw [List.drop_eq_getElem_cons hlen, List.take_succ_cons]
    unfold parseNewlinesLoop
    rw [dif_pos hlen, if_pos rfl]
    rw [ih (pos + 1) sb (by omega), show pos + 1 + m = pos + (m + 1) from by omega]

/-- Matching the remainder of the terminator runs into the Atoi tail. -/
theorem parseNewlinesLoop_run_aux :
    ∀ (n pos : Nat) (sb rest : List Nat), 3 - pos ≤ n → pos ≤ 3 →
      parseNewlinesLoop sb pos (newlinesLit.drop pos ++ rest) =
        parseFinish sb rest := by
  intro n
  induction n with
  | zero =>
    intro pos sb rest h1 h2
    have hp : pos = 3 := by omega
    subst hp
    rw [show newlinesLit.drop 3 = [] from rfl, List.nil_append]
    cases rest <;> rfl
  | succ n ih =>
    intro pos sb rest h1 h2
    by_cases hp : pos = 3
    · subst hp
      rw [show newlinesLit.drop 3 = [] from rfl, List.nil_append]
      cases rest <;> rfl
    · have hlen : pos < newlinesLit.length := by rw [newlinesLit_length]; omega
      rw [List.drop_eq_getElem_cons hlen, List.cons_append]
      unfold parseNewlinesLoop
      rw [dif_pos hlen, if_pos rfl]
      exact ih (pos + 1) sb rest (by omega) (by omega)

theorem parseNewlinesLoop_run (pos : Nat) (sb rest : List Nat) (h : pos ≤ 3) :
    parseNewlinesLoop sb pos (newlinesLit.drop pos ++ rest) = parseFinish sb rest :=
  parseNewlinesLoop_run_aux (3 - pos) pos sb rest le_rfl h

/-- On a pure non-empty digit run within the signed 64-bit range, Atoi
returns the run's decimal value. -/
theorem atoi_digits (ds : List Nat) (h1 : ds ≠ [])
    (h2 : ∀ c ∈ ds, isDigitByte c = true)
    (h3 : natOfDigits ds ≤ 2 ^ 63 - 1) :
    atoi ds = .ok (natOfDigits ds) := by
  obtain ⟨a, tl, rfl⟩ := List.exists_cons_of_ne_nil h1
  have ha : 48 ≤ a ∧ a ≤ 57 := by
    have := h2 a (by simp)
    simpa [isDigitByte, Bool.and_eq_true, decide_eq_true_iff] using this
  have hno : ¬ ((a :: tl).head? = some 43 ∨ (a :: tl).head? = some 45) := by
    simp only [List.head?_cons, Option.some.injEq]
    omega
  have hall : (a :: tl).all isDigitByte = true := List.all_eq_true.mpr h2
  simp only [atoi, if_neg hno, hall]
  rw [if_neg (by simp : ¬ (a :: tl).isEmpty = true)]
  simp only [if_pos trivial, if_true]
  rw [if_neg (show ¬ (decide ((a :: tl).head? = some 45)) = true by
    simp only [decide_eq_true_iff, List.head?_cons, Option.some.injEq]
    omega)]
  rw [if_pos h3]

/-- parseFinish on an accumulated positive in-range digit run returns its
value and resets the parser, leaving the buffer unread. -/
theorem parseFinish_digits (ds rest : List Nat) (h1 : ds ≠ [])
    (h2 : ∀ c ∈ ds, isDigitByte c = true)
    (h3 : natOfDigits ds ≤ 2 ^ 63 - 1) (h4 : 0 < natOfDigits ds) :
    parseFinish ds rest = ⟨.ok (natOfDigits ds : Int), initParser, rest⟩ := by
  unfold parseFinish
  rw [atoi_digits ds h1 h2 h3]
  dsimp only
  rw [if_neg (show ¬ ((natOfDigits ds : Int) ≤ 0) by omega)]

/-- Parser states reachable once a run of suspending Parse calls has
consumed exactly the first `k` bytes of `fullHeader ds`: inside the
header literal (pos k, accumulator unconstrained), inside the digit run
(the first k - 16 digits accumulated), or inside the terminator. -/
def Canonical (ds : List Nat) (k : Nat) (p : ContentHeaderParser) : Prop :=
  if k < 16 then
    (p.state = .INITIAL ∨ p.state = .IN_HEADER) ∧ p.pos = k
  else if k ≤ 16 + ds.length then
    p.state = .IN_LENGTH ∧ p.sb = ds.take (k - 16)
  else
    p.state = .IN_NEWLINES ∧ p.sb = ds ∧ p.pos = k - (17 + ds.length)

theorem parse_dispatch_header (p : ContentHeaderParser)
    (h : p.state = .INITIAL ∨ p.state = .IN_HEADER) (buf : List Nat) :
    p.Parse buf = parseHeaderLoop p.sb p.pos buf := by
  rcases h with h | h <;> (unfold ContentHeaderParser.Parse; rw [h])

theorem parse_dispatch_length (p : ContentHeaderParser)
    (h : p.state = .IN_LENGTH) (buf : List Nat) :
    p.Parse buf = parseLengthLoop p.sb p.pos buf := by
  unfold ContentHeaderParser.Parse; rw [h]

theorem parse_dispatch_newlines (p : ContentHeaderParser)
    (h : p.state = .IN_NEWLINES) (buf : List Nat) :
    p.Parse buf = parseNewlinesLoop p.sb p.pos buf := by
  unfold ContentHeaderParser.Parse; rw [h]

/-- From the IN_LENGTH state with `i` digits consumed, a chunk staying
strictly inside the remaining digits-plus-terminator suspends into the
canonical state for 16 + i + m1 consumed bytes. -/
theorem midPhase_sus (ds : List Nat) (hds : ∀ c ∈ ds, c ≠ 13)
    (i pos m1 : Nat) (hi : i ≤ ds.length) (hm : i + m1 < ds.length + 4) :
    ∃ p2, parseLengthLoop (ds.take i) pos ((ds.drop i ++ 13 :: newlinesLit).take m1) =
      ⟨.suspend, p2, []⟩ ∧ Canonical ds (16 + i + m1) p2 := by
  by_cases hm1 : i + m1 ≤ ds.length
  · have hlen : m1 ≤ (ds.drop i).length := by rw [List.length_drop]; omega
    rw [List.take_append_of_le_length hlen]
    rw [parseLengthLoop_sus ((ds.drop i).take m1) (ds.take i) pos
      (fun c hc => hds c (List.mem_of_mem_drop (List.mem_of_mem_take hc)))]
    refine ⟨_, rfl, ?_⟩
    unfold Canonical
    rw [if_neg (by omega), if_pos (by omega)]
    refine ⟨rfl, ?_⟩
    show ds.take i ++ (ds.drop i).take m1 = ds.take (16 + i + m1 - 16)
    rw [show 16 + i + m1 - 16 = i + m1 from by omega, List.take_add]
  · have hdi : (ds.drop i).length = ds.length - i := List.length_drop i ds
    have htake : (ds.drop i ++ 13 :: newlinesLit).take m1 =
        ds.drop i ++ (13 :: newlinesLit).take (m1 - (ds.length - i)) := by
      rw [List.take_append_eq_append_take,
        List.take_of_length_le (by omega), hdi]
    have hj : m1 - (ds.length - i) = (i + m1 - ds.length - 1) + 1 := by omega
    rw [htake, hj, List.take_succ_cons]
    rw [parseLengthLoop_run (ds.drop i) (ds.take i) _ pos
      (fun c hc => hds c (List.mem_of_mem_drop hc))]
    rw [List.take_append_drop]
    have hnl : newlinesLit.take (i + m1 - ds.length - 1) =
        (newlinesLit.drop 0).take (i + m1 - ds.length - 1) := by rw [List.drop_zero]
    rw [hnl, parseNewlinesLoop_sus (i + m1 - ds.length - 1) 0 ds (by omega)]
    refine ⟨_, rfl, ?_⟩
    unfold Canonical
    rw [if_neg (by omega), if_neg (by omega)]
    refine ⟨rfl, rfl, ?_⟩
    show 0 + (i + m1 - ds.length - 1) = 16 + i + m1 - (17 + ds.length)
    omega

/-- From the IN_LENGTH state with `i` digits consumed, the whole remaining
digits-plus-terminator input yields the digit run's value. -/
theorem midPhase_ok (ds : List Nat) (h1 : ds ≠ [])
    (h2 : ∀ c ∈ ds, isDigitByte c = true)
    (h3 : natOfDigits ds ≤ 2 ^ 63 - 1) (h4 : 0 < natOfDigits ds)
    (i pos : Nat) :
    parseLengthLoop (ds.take i) pos (ds.drop i ++ 13 :: newlinesLit) =
      ⟨.ok (natOfDigits ds : Int), initParser, []⟩ := by
  have hds13 : ∀ c ∈ ds, c ≠ 13 := fun c hc => by
    have := h2 c hc
    simp [isDigitByte, Bool.and_eq_true, decide_eq_true_iff] at this
    omega
  rw [parseLengthLoop_run (ds.drop i) (ds.take i) newlinesLit pos
    (fun c hc => hds13 c (List.mem_of_mem_drop hc))]
  rw [List.take_append_drop]
  rw [show newlinesLit = newlinesLit.drop 0 ++ [] from by simp]
  rw [parseNewlinesLoop_run 0 ds [] (by omega)]
  exact parseFinish_digits ds [] h1 h2 h3 h4

/-- One Parse call from the canonical state for `k` consumed bytes, fed the
next `m` bytes of the valid header while stopping strictly short of its
end, suspends with a drained buffer and lands in the canonical state for
`k + m` consumed bytes. -/
theorem parse_canonical_sus (ds : List Nat)
    (h2 : ∀ c ∈ ds, isDigitByte c = true)
    (k m : Nat) (p : ContentHeaderParser) (hc : Canonical ds k p)
    (hkm : k + m < 20 + ds.length) :
    ∃ p2, p.Parse (((fullHeader ds).drop k).take m) = ⟨.suspend, p2, []⟩ ∧
      Canonical ds (k + m) p2 := by
  have hds13 : ∀ c ∈ ds, c ≠ 13 := fun c hcm => by
    have := h2 c hcm
    simp [isDigitByte, Bool.and_eq_true, decide_eq_true_iff] at this
    omega
  by_cases hk16 : k < 16
  · obtain ⟨hst, hpos⟩ : (p.state = .INITIAL ∨ p.state = .IN_HEADER) ∧ p.pos = k := by
      unfold Canonical at hc
      rwa [if_pos hk16] at hc
    rw [parse_dispatch_header p hst, hpos]
    have hF : (fullHeader ds).drop k = headerLit.drop k ++ (ds ++ 13 :: newlinesLit) := by
      unfold fullHeader
      rw [List.append_assoc, List.drop_append_eq_append_drop, headerLit_length,
        Nat.sub_eq_zero_of_le (by omega), List.drop_zero]
    rw [hF]
    by_cases hm16 : k + m < 16
    · have hlen : m ≤ (headerLit.drop k).length := by
        rw [List.length_drop, headerLit_length]; omega
      rw [List.take_append_of_le_length hlen]
      obtain ⟨sb2, hs⟩ := parseHeaderLoop_sus m k p.sb hm16
      refine ⟨⟨.IN_HEADER, k + m, sb2⟩, hs, ?_⟩
      unfold Canonical
      rw [if_pos hm16]
      exact ⟨Or.inr rfl, rfl⟩
    · have hdk : (headerLit.drop k).length = 16 - k := by
        rw [List.length_drop, headerLit_length]
      have htake : (headerLit.drop k ++ (ds ++ 13 :: newlinesLit)).take m =
          headerLit.drop k ++ (ds ++ 13 :: newlinesLit).take (m - (16 - k)) := by
        rw [List.take_append_eq_append_take,
          List.take_of_length_le (by rw [hdk]; omega), hdk]
      rw [htake, parseHeaderLoop_run k p.sb _ (by omega)]
      obtain ⟨p2, hp2, hcan⟩ :=
        midPhase_sus ds hds13 0 0 (m - (16 - k)) (by omega) (by omega)
      refine ⟨p2, hp2, ?_⟩
      rwa [show 16 + 0 + (m - (16 - k)) = k + m from by omega] at hcan
  · by_cases hk16d : k ≤ 16 + ds.length
    · obtain ⟨hst, hsb⟩ : p.state = .IN_LENGTH ∧ p.sb = ds.take (k - 16) := by
        unfold Canonical at hc
        rwa [if_neg hk16, if_pos hk16d] at hc
      rw [parse_dispatch_length p hst, hsb]
      have hH : headerLit.drop k = [] :=
        List.drop_eq_nil_of_le (by rw [headerLit_length]; omega)
      have hsub : k - 16 - ds.length = 0 := by omega
      have hF : (fullHeader ds).drop k = ds.drop (k - 16) ++ 13 :: newlinesLit := by
        unfold fullHeader
        rw [List.append_assoc, List.drop_append_eq_append_drop, headerLit_length, hH,
          List.nil_append, List.drop_append_eq_append_drop, hsub, List.drop_zero]
      rw [hF]
      obtain ⟨p2, hp2, hcan⟩ :=
        midPhase_sus ds hds13 (k - 16) p.pos m (by omega) (by omega)
      refine ⟨p2, hp2, ?_⟩
      rwa [show 16 + (k - 16) + m = k + m from by omega] at hcan
    · obtain ⟨hst, hsb, hpos⟩ :
          p.state = .IN_NEWLINES ∧ p.sb = ds ∧ p.pos = k - (17 + ds.length) := by
        unfold Canonical at hc
        rwa [if_neg hk16, if_neg hk16d] at hc
      rw [parse_dispatch_newlines p hst, hsb, hpos]
      have hH : headerLit.drop k = [] :=
        List.drop_eq_nil_of_le (by rw [headerLit_length]; omega)
      have hD : ds.drop (k - 16) = [] := List.drop_eq_nil_of_le (by omega)
      have hsub : k - 16 - ds.length = (k - (17 + ds.length)) + 1 := by omega
      have hF : (fullHeader ds).drop k = newlinesLit.drop (k - (17 + ds.length)) := by
        unfold fullHeader
        rw [List.append_assoc, List.drop_append_eq_append_drop, headerLit_length, hH,
          List.nil_append, List.drop_append_eq_append_drop, hD, List.nil_append, hsub]
        rfl
      rw [hF, parseNewlinesLoop_sus m (k - (17 + ds.length)) ds (by omega)]
      refine ⟨_, rfl, ?_⟩
      unfold Canonical
      rw [if_neg (by omega), if_neg (by omega)]
      refine ⟨rfl, rfl, ?_⟩
      show k - (17 + ds.length) + m = k + m - (17 + ds.length)
      omega

/-- One Parse call from the canonical state for `k` consumed bytes, fed all
remaining bytes of the valid header, returns the digit run's value with the
parser reset and the buffer drained. -/
theorem parse_canonical_ok (ds : List Nat) (h1 : ds ≠ [])
    (h2 : ∀ c ∈ ds, isDigitByte c = true)
    (h3 : natOfDigits ds ≤ 2 ^ 63 - 1) (h4 : 0 < natOfDigits ds)
    (k : Nat) (p : ContentHeaderParser) (hc : Canonical ds k p)
    (hk : k < 20 + ds.length) :
    p.Parse ((fullHeader ds).drop k) =
      ⟨.ok (natOfDigits ds : Int), initParser, []⟩ := by
  by_cases hk16 : k < 16
  · obtain ⟨hst, hpos⟩ : (p.state = .INITIAL ∨ p.state = .IN_HEADER) ∧ p.pos = k := by
      unfold Canonical at hc
      rwa [if_pos hk16] at hc
    rw [parse_dispatch_header p hst, hpos]
    have hF : (fullHeader ds).drop k = headerLit.drop k ++ (ds ++ 13 :: newlinesLit) := by
      unfold fullHeader
      rw [List.append_assoc, List.drop_append_eq_append_drop, headerLit_length,
        Nat.sub_eq_zero_of_le (by omega), List.drop_zero]
    rw [hF, parseHeaderLoop_run k p.sb _ (by omega)]
    exact midPhase_ok ds h1 h2 h3 h4 0 0
  · by_cases hk16d : k ≤ 16 + ds.length
    · obtain ⟨hst, hsb⟩ : p.state = .IN_LENGTH ∧ p.sb = ds.take (k - 16) := by
        unfold Canonical at hc
        rwa [if_neg hk16, if_pos hk16d] at hc
      rw [parse_dispatch_length p hst, hsb]
      have hH : headerLit.drop k = [] :=
        List.drop_eq_nil_of_le (by rw [headerLit_length]; omega)
      have hsub : k - 16 - ds.length = 0 := by omega
      have hF : (fullHeader ds).drop k = ds.drop (k - 16) ++ 13 :: newlinesLit := by
        unfold fullHeader
        rw [List.append_assoc, List.drop_append_eq_append_drop, headerLit_length, hH,
          List.nil_append, List.drop_append_eq_append_drop, hsub, List.drop_zero]
      rw [hF]
      exact midPhase_ok ds h1 h2 h3 h4 (k - 16) p.pos
    · obtain ⟨hst, hsb, hpos⟩ :
          p.state = .IN_NEWLINES ∧ p.sb = ds ∧ p.pos = k - (17 + ds.length) := by
        unfold Canonical at hc
        rwa [if_neg hk16, if_neg hk16d] at hc
      rw [parse_dispatch_newlines p hst, hsb, hpos]
      have hH : headerLit.drop k = [] :=
        List.drop_eq_nil_of_le (by rw [headerLit_length]; omega)
      have hD : ds.drop (k - 16) = [] := List.drop_eq_nil_of_le (by omega)
      have hsub : k - 16 - ds.length = (k - (17 + ds.length)) + 1 := by omega
      have hF : (fullHeader ds).drop k = newlinesLit.drop (k - (17 + ds.length)) := by
        unfold fullHeader
        rw [List.append_assoc, List.drop_append_eq_append_drop, headerLit_length, hH,
          List.nil_append, List.drop_append_eq_append_drop, hD, List.nil_append, hsub]
        rfl
      rw [hF,
        show newlinesLit.drop (k - (17 + ds.length)) =
          newlinesLit.drop (k - (17 + ds.length)) ++ [] from by simp]
      rw [parseNewlinesLoop_run (k - (17 + ds.length)) ds [] (by omega)]
      exact parseFinish_digits ds [] h1 h2 h3 h4

/-- The pump's repeated-Parse process of C1: append each chunk to the
buffer the previous call left behind and call Parse, collecting the
results in order and returning the final parser and buffer. -/
def feedChunks (p : ContentHeaderParser) (buf : List Nat) :
    List (List Nat) → List ParseResult × ContentHeaderParser × List Nat
  | [] => ([], p, buf)
  | c :: cs =>
    let step := p.Parse (buf ++ c)
    let next := feedChunks step.parser step.buffer cs
    (step.result :: next.1, next.2)

/-- Feeding any chunking of the remaining bytes of a valid header from a
canonical state suspends on every call but the last and succeeds on the
call that sees the final byte. -/
theorem feed_canonical (ds : List Nat) (h1 : ds ≠ [])
    (h2 : ∀ c ∈ ds, isDigitByte c = true)
    (h3 : natOfDigits ds ≤ 2 ^ 63 - 1) (h4 : 0 < natOfDigits ds) :
    ∀ (chunks : List (List Nat)) (k : Nat) (p : ContentHeaderParser),
      Canonical ds k p → k < 20 + ds.length →
      chunks.flatten = (fullHeader ds).drop k →
      chunks.getLast? ≠ some [] → chunks ≠ [] →
      feedChunks p [] chunks =
        (List.replicate (chunks.length - 1) .suspend ++
           [.ok (natOfDigits ds : Int)], initParser, []) := by
  intro chunks
  induction chunks with
  | nil => intro k p _ _ _ _ hne; exact absurd rfl hne
  | cons c cs ih =>
    intro k p hc hk hflat hlast _
    rw [List.flatten_cons] at hflat
    cases cs with
    | nil =>
      have hcne : c ≠ [] := by simpa using hlast
      rw [List.flatten_nil, List.append_nil] at hflat
      have hok := parse_canonical_ok ds h1 h2 h3 h4 k p hc hk
      rw [← hflat] at hok
      unfold feedChunks
      rw [List.nil_append, hok]
      rfl
    | cons c2 cs2 =>
      have hlast2 : (c2 :: cs2).getLast? ≠ some [] := by
        rwa [List.getLast?_cons_cons] at hlast
      have hglne : (c2 :: cs2).getLast (by simp) ≠ [] := by
        intro hnil
        apply hlast2
        rw [List.getLast?_eq_getLast_of_ne_nil (by simp), hnil]
      have hjoin_ne : (c2 :: cs2).flatten ≠ [] := by
        intro hnil
        rw [List.flatten_eq_nil_iff] at hnil
        exact hglne (hnil _ (List.getLast_mem (by simp)))
      have hlen : c.length + ((c2 :: cs2).flatten).length = 20 + ds.length - k := by
        have hl := congrArg List.length hflat
        rw [List.length_append, List.length_drop, fullHeader_length] at hl
        exact hl
      have hkm : k + c.length < 20 + ds.length := by
        have hpos : 0 < ((c2 :: cs2).flatten).length := List.length_pos.mpr hjoin_ne
        omega
      have hc' : ((fullHeader ds).drop k).take c.length = c := by
        rw [← hflat, List.take_left]
      obtain ⟨p2, hstep, hcan2⟩ := parse_canonical_sus ds h2 k c.length p hc hkm
      rw [hc'] at hstep
      have hflat2 : (c2 :: cs2).flatten = (fullHeader ds).drop (k + c.length) := by
        have hdp : (c2 :: cs2).flatten = ((fullHeader ds).drop k).drop c.length := by
          rw [← hflat, List.drop_left]
        rw [hdp, List.drop_drop]
      unfold feedChunks
      rw [List.nil_append, hstep]
      have hrec := ih (k + c.length) p2 hcan2 hkm hflat2 hlast2 (by simp)
      dsimp only
      rw [hrec]
      simp [List.replicate_succ]

/-- C1: for every valid framing header byte sequence — the literal
"Content-Length: ", an unsigned decimal digit run denoting a positive
length representable in Go's int, then "\r\n\r\n" — and every way of
splitting it into chunks appended incrementally to the buffer (the last
chunk non-empty so the final byte arrives on the last call), Parse returns
the suspend signal on every call made while the fed bytes form a strict
prefix, and returns the correct length exactly once, on the call that sees
the final byte, finishing with a reset parser and a drained buffer; each
byte is consumed from the buffer exactly once, so resumption never
re-validates already-matched header bytes. -/
theorem c1_resumable_parse (ds : List Nat) (hne : ds ≠ [])
    (hdig : ∀ c ∈ ds, isDigitByte c = true)
    (hpos : 0 < natOfDigits ds) (hrange : natOfDigits ds ≤ 2 ^ 63 - 1)
    (chunks : List (List Nat)) (hflat : chunks.flatten = fullHeader ds)
    (hlast : chunks.getLast? ≠ some []) :
    feedChunks initParser [] chunks =
      (List.replicate (chunks.length - 1) .suspend ++
         [.ok (natOfDigits ds : Int)], initParser, []) := by
  have hchne : chunks ≠ [] := by
    intro h
    rw [h, List.flatten_nil] at hflat
    exact absurd hflat.symm (by simp [fullHeader, headerLit])
  exact feed_canonical ds hne hdig hrange hpos chunks 0 initParser
    (by unfold Canonical; rw [if_pos (by omega)]; exact ⟨Or.inl rfl, rfl⟩)
    (by omega) (by simpa using hflat) hlast hchne

/-- Witness for c1_resumable_parse: the test vector
"Content-Length: 123\r\n\r\n" fed one byte at a time suspends 22 times and
returns 123 on the 23rd call. -/
theorem c1_witness :
    feedChunks initParser [] ((fullHeader [49, 50, 51]).map (fun b => [b])) =
      (List.replicate 22 .suspend ++ [.ok 123], initParser, []) := by
  have h := c1_resumable_parse [49, 50, 51] (by decide) (by decide) (by decide)
    (by decide) ((fullHeader [49, 50, 51]).map (fun b => [b])) (by decide) (by decide)
  simpa using h
